import Mathlib

/-!
Verification of `k8s.io/apimachinery/pkg/apis/meta/v1/unstructured/helpers.go`
(vendored in this repository): nested-path accessors and mutators over a
schema-less JSON-like tree, the shape-sniffing JSON codec for `Unstructured` /
`UnstructuredList`, and the no-op `UnstructuredObjectConverter`.

The dynamic `interface{}` values produced by the JSON tokenizer are embedded as
the inductive `JValue`; Go maps `map[string]interface{}` are embedded as
association lists with Go-map lookup/replace/delete semantics. Go functions
that can panic are embedded as `Option`-returning functions where `none` marks
a runtime panic. The byte-level tokenizer is external to this code (it lives in
other packages), so codec entry points are modelled on already-parsed trees.
-/

set_option autoImplicit false

/-- A dynamic JSON-like value as produced by the tokenizer into `interface{}`:
mapping, sequence, string, bool, int64, float64 (kept abstract as its bit
pattern, never inspected by this file's code), or null. -/
inductive JValue where
  | null : JValue
  | str (s : String) : JValue
  | bool (b : Bool) : JValue
  | int (n : Int) : JValue
  | float (bits : Nat) : JValue
  | arr (elems : List JValue) : JValue
  | obj (entries : List (String × JValue)) : JValue
  deriving Repr

/-- A Go `map[string]interface{}`, embedded as an association list. All
operations below give it Go-map observable semantics (lookup by key; insert
replaces; delete removes). -/
abbrev JMap := List (String × JValue)

/-- Go map read `m[k]`: the value at key `k`, if present. -/
def lookupKey : JMap → String → Option JValue
  | [], _ => none
  | (k', v) :: rest, k => if k' = k then some v else lookupKey rest k

/-- Go `delete(m, k)`. -/
def eraseKey : JMap → String → JMap
  | [], _ => []
  | (k', v) :: rest, k => if k' = k then eraseKey rest k else (k', v) :: eraseKey rest k

/-- Go map write `m[k] = v`. -/
def insertKey (m : JMap) (k : String) (v : JValue) : JMap :=
  (k, v) :: eraseKey m k

/-- The traversal loop of `nestedFieldNoCopy` (helpers.go:44): starting from
`val`, at each path segment require the current value to be a mapping and step
to the segment's entry; report not-found on an absent key or a non-mapping. -/
def nestedFieldNoCopyVal : JValue → List String → Option JValue
  | v, [] => some v
  | JValue.obj m, field :: rest =>
      match lookupKey m field with
      | some v => nestedFieldNoCopyVal v rest
      | none => none
  | _, _ :: _ => none

/-- Function `nestedFieldNoCopy` (helpers.go:44): walk `fields` from the root mapping
`obj`. -/
def nestedFieldNoCopy (obj : JMap) (fields : List String) : Option JValue :=
  nestedFieldNoCopyVal (JValue.obj obj) fields

mutual
/-- External `runtime.DeepCopyJSONValue`, structurally recursive clone of a JSON tree
(external to helpers.go; it rebuilds maps and slices and returns scalars). -/
def DeepCopyJSONValue : JValue → JValue
  | JValue.null => JValue.null
  | JValue.str s => JValue.str s
  | JValue.bool b => JValue.bool b
  | JValue.int n => JValue.int n
  | JValue.float bits => JValue.float bits
  | JValue.arr elems => JValue.arr (deepCopyList elems)
  | JValue.obj entries => JValue.obj (deepCopyEntries entries)

/-- Clone of each element of a JSON sequence. -/
def deepCopyList : List JValue → List JValue
  | [] => []
  | v :: rest => DeepCopyJSONValue v :: deepCopyList rest

/-- Clone of each entry of a JSON mapping. -/
def deepCopyEntries : List (String × JValue) → List (String × JValue)
  | [] => []
  | (k, v) :: rest => (k, DeepCopyJSONValue v) :: deepCopyEntries rest
end

/-- Function `NestedFieldCopy` (helpers.go:36): raw traversal, then a deep copy of the
result. -/
def NestedFieldCopy (obj : JMap) (fields : List String) : Option JValue :=
  match nestedFieldNoCopy obj fields with
  | some val => some (DeepCopyJSONValue val)
  | none => none

/-- Function `NestedString` (helpers.go:62): raw traversal, then a string type
assertion; `none` embeds Go's `("", false)` not-found result. -/
def NestedString (obj : JMap) (fields : List String) : Option String :=
  match nestedFieldNoCopy obj fields with
  | some (JValue.str s) => some s
  | _ => none

/-- The element loop of `NestedStringSlice`: all elements must be strings,
collected in order; any non-string element aborts the whole call. -/
def stringSliceOfElems : List JValue → Option (List String)
  | [] => some []
  | JValue.str s :: rest =>
      match stringSliceOfElems rest with
      | some tail => some (s :: tail)
      | none => none
  | _ :: _ => none

/-- Function `NestedStringSlice` (helpers.go:106): raw traversal, then a
`[]interface{}` assertion, then the all-or-nothing string collection. -/
def NestedStringSlice (obj : JMap) (fields : List String) : Option (List String) :=
  match nestedFieldNoCopy obj fields with
  | some (JValue.arr elems) => stringSliceOfElems elems
  | _ => none

/-- Function `setNestedFieldNoCopy` (helpers.go:183). Go walks `fields[:len(fields)-1]`
creating empty maps at absent segments, returns `false` at an existing
non-mapping intermediate, and assigns `value` at `fields[len(fields)-1]`.
With zero fields both slice expressions index out of range and the call
panics: `none` embeds that panic. `some (m, ok)` embeds a normal return `ok`
with the tree left as `m` (on `ok = false` the tree is unchanged: the failing
walk has created nothing, since creation of one absent segment forces every
later segment to be created as well). -/
def setNestedFieldNoCopy : JMap → JValue → List String → Option (JMap × Bool)
  | _, _, [] => none
  | obj, value, [field] => some (insertKey obj field value, true)
  | obj, value, field :: next :: rest =>
      match lookupKey obj field with
      | some (JValue.obj sub) =>
          match setNestedFieldNoCopy sub value (next :: rest) with
          | some (sub', true) => some (insertKey obj field (JValue.obj sub'), true)
          | some (_, false) => some (obj, false)
          | none => none
      | some _ => some (obj, false)
      | none =>
          match setNestedFieldNoCopy [] value (next :: rest) with
          | some (sub', ok) => some (insertKey obj field (JValue.obj sub'), ok)
          | none => none

/-- Function `SetNestedField` (helpers.go:179): deep-copy the value first, then the
no-copy assignment. -/
def SetNestedField (obj : JMap) (value : JValue) (fields : List String) : Option (JMap × Bool) :=
  setNestedFieldNoCopy obj (DeepCopyJSONValue value) fields

/-- Function `RemoveNestedField` (helpers.go:235). Go walks `fields[:len(fields)-1]`,
silently returning if an intermediate is absent or not a mapping, then
deletes `fields[len(fields)-1]` from the terminal mapping. With zero fields
the slice expressions index out of range and the call panics: `none` embeds
that panic; `some m` embeds a normal return with the tree left as `m`. -/
def RemoveNestedField : JMap → List String → Option JMap
  | _, [] => none
  | obj, [field] => some (eraseKey obj field)
  | obj, field :: next :: rest =>
      match lookupKey obj field with
      | some (JValue.obj sub) =>
          match RemoveNestedField sub (next :: rest) with
          | some sub' => some (insertKey obj field (JValue.obj sub'))
          | none => none
      | _ => some obj

/-- Function `getNestedString` (helpers.go:247): the string at the path, or `""` when
not found. -/
def getNestedString (obj : JMap) (fields : List String) : String :=
  match NestedString obj fields with
  | some s => s
  | none => ""

/-- The `Unstructured` type (unstructured.go, this package): a dynamic object
backed by a `map[string]interface{}`. -/
structure Unstructured where
  Object : JMap

/-- The `UnstructuredList` type (unstructured.go, this package): a backing
mapping plus the dedicated sequence of items. -/
structure UnstructuredList where
  Object : JMap
  Items : List Unstructured

/-- Modelled from the spec: "read/write kind ... by well-known path" — the
kind string of a backing mapping, read with the Path Accessor
(`getNestedString(obj, "kind")`). Used for both `Unstructured.GetKind` and
`UnstructuredList.GetKind`, which are declared outside `src/`. -/
def getKindOf (obj : JMap) : String :=
  getNestedString obj ["kind"]

/-- Modelled from the spec: the apiVersion string of a backing mapping, read
by well-known path (`getNestedString(obj, "apiVersion")`). -/
def getAPIVersionOf (obj : JMap) : String :=
  getNestedString obj ["apiVersion"]

/-- Modelled from the spec: "read/write kind ... by well-known path" —
`Unstructured.SetKind` writes the kind string at top-level key "kind"
(a one-segment `SetNestedField`, which on a one-segment path is exactly a map
write). -/
def SetKind (u : Unstructured) (kind : String) : Unstructured :=
  ⟨insertKey u.Object "kind" (JValue.str kind)⟩

/-- Modelled from the spec: `Unstructured.SetAPIVersion` writes the
apiVersion string at top-level key "apiVersion". -/
def SetAPIVersion (u : Unstructured) (version : String) : Unstructured :=
  ⟨insertKey u.Object "apiVersion" (JValue.str version)⟩

/-- External `strings.TrimSuffix`: drop one trailing occurrence of the suffix
when present (computed on the underlying character list, which matches the
byte-level Go function on these inputs). -/
def trimSuffix (s suffixStr : String) : String :=
  if suffixStr.data.isSuffixOf s.data
  then String.mk (s.data.take (s.data.length - suffixStr.data.length))
  else s

/-- The `dList` extraction of `decodeToList` (helpers.go:381): unmarshalling
the payload into `struct{ Items []gojson.RawMessage }` yields the raw items
when the top-level "items" key holds a sequence, `nil` items when the key is
absent or null, and an unmarshal error when it holds any other value. -/
def extractItems (payload : JMap) : Except String (List JValue)
  := match lookupKey payload "items" with
  | none => Except.ok []
  | some JValue.null => Except.ok []
  | some (JValue.arr elems) => Except.ok elems
  | some _ => Except.error "cannot unmarshal items field into []json.RawMessage"

/-- The per-item `decodeToUnstructured` calls of `decodeToList`
(helpers.go:398-401): each raw item must unmarshal into a
`map[string]interface{}`, and the first non-mapping item aborts the decode. -/
def decodeItems : List JValue → Except String (List JMap)
  | [] => Except.ok []
  | JValue.obj m :: rest =>
      match decodeItems rest with
      | Except.ok tail => Except.ok (m :: tail)
      | Except.error e => Except.error e
  | _ :: _ => Except.error "cannot unmarshal item into map[string]interface{}"

/-- Function `decodeToList` (helpers.go:376), on an already-parsed payload mapping
(byte-level parsing is done by the external tokenizer): extract the raw
items, read the list's apiVersion and kind, strip a trailing "List" from the
kind, delete "items" from the backing mapping, decode each item, and stamp an
item's kind/apiVersion with the inferred pair exactly when both of the item's
own fields are empty. -/
def decodeToList (payload : JMap) : Except String UnstructuredList :=
  match extractItems payload with
  | Except.error e => Except.error e
  | Except.ok rawItems =>
      let listAPIVersion := getAPIVersionOf payload
      let listKind := getKindOf payload
      let itemKind := trimSuffix listKind "List"
      match decodeItems rawItems with
      | Except.error e => Except.error e
      | Except.ok ms =>
          Except.ok
            { Object := eraseKey payload "items"
            , Items := ms.map (fun m =>
                if getKindOf m = "" ∧ getAPIVersionOf m = ""
                then SetAPIVersion (SetKind ⟨m⟩ itemKind) listAPIVersion
                else ⟨m⟩) }

/-- The decoded result of `unstructuredJSONScheme.decode`: either a single
`Unstructured` or an `UnstructuredList`. -/
inductive DecodedObj where
  | single (u : Unstructured) : DecodedObj
  | list (l : UnstructuredList) : DecodedObj

/-- Modelled from the spec: the type descriptor returned by
`GetObjectKind().GroupVersionKind()` (declared outside `src/`), "carrying
only the (possibly empty) kind/version", read by well-known path from the
backing mapping. -/
structure TypeMeta where
  apiVersion : String
  kind : String

/-- The type descriptor of a decoded object: kind and apiVersion read from
the backing mapping of the single object or of the list. -/
def typeMetaOf : DecodedObj → TypeMeta
  | DecodedObj.single u => ⟨getAPIVersionOf u.Object, getKindOf u.Object⟩
  | DecodedObj.list l => ⟨getAPIVersionOf l.Object, getKindOf l.Object⟩

/-- Errors surfaced by `unstructuredJSONScheme.Decode`: tokenizer/unmarshal
failures, and `runtime.NewMissingKindErr` (declared outside `src/`, modelled
from the spec as a bare "missing kind" condition). -/
inductive DecodeErr where
  | unmarshal (msg : String) : DecodeErr
  | missingKind : DecodeErr

/-- Function `unstructuredJSONScheme.decode` (helpers.go:327) on an already-parsed
payload: probe for a top-level "items" key (the `detector` unmarshal finds
one whenever the key is present, whatever its value); decode as a list when
present, as a single object otherwise. A payload whose root is not a mapping
is an unmarshal error (per the spec, non-map document roots are out of
scope). -/
def decodeValue : JValue → Except DecodeErr DecodedObj
  | JValue.obj payload =>
      if (lookupKey payload "items").isSome then
        match decodeToList payload with
        | Except.ok l => Except.ok (DecodedObj.list l)
        | Except.error e => Except.error (DecodeErr.unmarshal e)
      else Except.ok (DecodedObj.single ⟨payload⟩)
  | _ => Except.error (DecodeErr.unmarshal "cannot unmarshal payload into object")

/-- The triple `(runtime.Object, *schema.GroupVersionKind, error)` returned
by `unstructuredJSONScheme.Decode`. -/
structure DecodeOutput where
  obj : Option DecodedObj
  gvk : Option TypeMeta
  err : Option DecodeErr

/-- Method `unstructuredJSONScheme.Decode` (helpers.go:283) with a nil target object
(the shape-probing path): decode the payload; on a decode error return
`(nil, nil, err)`; then read the decoded object's type descriptor, and if its
kind is empty return `(nil, &gvk, NewMissingKindErr(...))`; otherwise return
`(obj, &gvk, nil)`. -/
def Decode (payload : JValue) : DecodeOutput :=
  match decodeValue payload with
  | Except.error e => ⟨none, none, some e⟩
  | Except.ok o =>
      let gvk := typeMetaOf o
      if gvk.kind = "" then ⟨none, some gvk, some DecodeErr.missingKind⟩
      else ⟨some o, some gvk, none⟩

/-- The `*UnstructuredList` branch of `unstructuredJSONScheme.Encode`
(helpers.go:307-317): the mapping handed to the serializer — a shallow copy
of the list's backing mapping whose "items" key is overwritten with the
sequence of the items' backing mappings, in order. -/
def encodeListObject (t : UnstructuredList) : JMap :=
  insertKey t.Object "items" (JValue.arr (t.Items.map (fun i => JValue.obj i.Object)))

/-- A concrete Go value passed through `interface{}` to
`UnstructuredObjectConverter.Convert`: a `*Unstructured`, a
`*UnstructuredList`, or any other shape, carried with the type name that
`%T` would print for it. -/
inductive ConvArg where
  | unstructured (u : Unstructured) : ConvArg
  | unstructuredList (l : UnstructuredList) : ConvArg
  | other (goTypeName : String) : ConvArg

/-- Modelled from the spec: the `%T` type name of a conversion argument
("naming the unexpected concrete shape"). -/
def typeNameOf : ConvArg → String
  | ConvArg.unstructured _ => "*unstructured.Unstructured"
  | ConvArg.unstructuredList _ => "*unstructured.UnstructuredList"
  | ConvArg.other goTypeName => goTypeName

/-- Method `UnstructuredObjectConverter.Convert` (helpers.go:420): both arguments
must be `*Unstructured`, otherwise an error naming the offending argument's
concrete type; on success the output's backing storage is assigned the
input's. The pair returned is `(error, out after the call)`: on error the
output is returned unchanged. -/
def Convert (cin cout : ConvArg) : Option String × ConvArg :=
  match cin with
  | ConvArg.unstructured uin =>
      match cout with
      | ConvArg.unstructured _ => (none, ConvArg.unstructured ⟨uin.Object⟩)
      | _ => (some ("output type " ++ typeNameOf cout ++ " in not valid for unstructured conversion"), cout)
  | _ => (some ("input type " ++ typeNameOf cin ++ " in not valid for unstructured conversion"), cout)

/-- Characterization of the walk of `setNestedFieldNoCopy` over the leading
path segments: `true` when the walk meets no existing non-mapping value
before its first absent segment (after an absent segment it only creates
fresh empty mappings and can no longer fail), `false` when some existing
intermediate value is not a mapping. -/
def pathClear : JMap → List String → Bool
  | _, [] => true
  | obj, field :: rest =>
      match lookupKey obj field with
      | some (JValue.obj sub) => pathClear sub rest
      | some _ => false
      | none => true

/-- The two item mappings of the spec's `PodList` payload: the first lacks
both kind and apiVersion, the second carries kind "Node" only. -/
def podListItemMaps : List JMap :=
  [ [("metadata", JValue.obj [("name", JValue.str "a")])]
  , [("kind", JValue.str "Node"), ("metadata", JValue.obj [("name", JValue.str "b")])] ]

/-- The parsed tree of the spec's list payload
`{"kind":"PodList","apiVersion":"v1","items":[...]}`. -/
def podListPayload : JMap :=
  [ ("kind", JValue.str "PodList")
  , ("apiVersion", JValue.str "v1")
  , ("items", JValue.arr (podListItemMaps.map JValue.obj)) ]

/-- The decoded form of `podListPayload`: "items" removed from the backing
mapping, first item stamped with kind "Pod" and apiVersion "v1", second item
untouched. -/
def podListDecoded : UnstructuredList :=
  { Object := [("kind", JValue.str "PodList"), ("apiVersion", JValue.str "v1")]
  , Items :=
      [ ⟨[ ("apiVersion", JValue.str "v1"), ("kind", JValue.str "Pod")
         , ("metadata", JValue.obj [("name", JValue.str "a")])]⟩
      , ⟨[ ("kind", JValue.str "Node")
         , ("metadata", JValue.obj [("name", JValue.str "b")])]⟩ ] }

/-- The parsed tree of the spec's payload `{"metadata":{"name":"a"}}`, which
carries no "kind" field. -/
def missingKindPayload : JValue :=
  JValue.obj [("metadata", JValue.obj [("name", JValue.str "a")])]

example : nestedFieldNoCopy [("a", JValue.obj [("b", JValue.int 3)])] ["a", "b"] = some (JValue.int 3) := rfl
example : SetNestedField [] (JValue.str "x") ["a", "b"] =
    some ([("a", JValue.obj [("b", JValue.str "x")])], true) := rfl
example : SetNestedField [("a", JValue.int 1)] (JValue.str "x") ["a", "b"] =
    some ([("a", JValue.int 1)], false) := rfl
example : SetNestedField [] (JValue.str "x") [] = none := rfl
example : RemoveNestedField [("a", JValue.obj [("b", JValue.int 3), ("c", JValue.null)])] ["a", "b"] =
    some ([("a", JValue.obj [("c", JValue.null)])]) := rfl
example : NestedStringSlice [("a", JValue.arr [JValue.str "x", JValue.int 1])] ["a"] = none := rfl
example : NestedStringSlice [("a", JValue.arr [JValue.str "x", JValue.str "y"])] ["a"] =
    some ["x", "y"] := rfl

theorem lookupKey_eraseKey_self (m : JMap) (k : String) :
    lookupKey (eraseKey m k) k = none := by
  induction m with
  | nil => rfl
  | cons hd tl ih =>
      obtain ⟨k₀, v₀⟩ := hd
      by_cases h : k₀ = k <;> simp [eraseKey, lookupKey, h, ih]

theorem lookupKey_eraseKey_ne (m : JMap) (k k' : String) (h : k ≠ k') :
    lookupKey (eraseKey m k) k' = lookupKey m k' := by
  induction m with
  | nil => rfl
  | cons hd tl ih =>
      obtain ⟨k₀, v₀⟩ := hd
      by_cases h0 : k₀ = k
      · subst h0; simp [eraseKey, lookupKey, h, ih]
      · by_cases h1 : k₀ = k'
        · subst h1; simp [eraseKey, lookupKey, h0]
        · simp [eraseKey, lookupKey, h0, h1, ih]

theorem lookupKey_insertKey_self (m : JMap) (k : String) (v : JValue) :
    lookupKey (insertKey m k v) k = some v := by
  simp [insertKey, lookupKey]

theorem lookupKey_insertKey_ne (m : JMap) (k k' : String) (v : JValue) (h : k ≠ k') :
    lookupKey (insertKey m k v) k' = lookupKey m k' := by
  simp [insertKey, lookupKey, h, lookupKey_eraseKey_ne m k k' h]

mutual
theorem DeepCopyJSONValue_eq : ∀ v : JValue, DeepCopyJSONValue v = v
  | JValue.null => by rw [DeepCopyJSONValue]
  | JValue.str s => by rw [DeepCopyJSONValue]
  | JValue.bool b => by rw [DeepCopyJSONValue]
  | JValue.int n => by rw [DeepCopyJSONValue]
  | JValue.float bits => by rw [DeepCopyJSONValue]
  | JValue.arr elems => by rw [DeepCopyJSONValue, deepCopyList_eq elems]
  | JValue.obj entries => by rw [DeepCopyJSONValue, deepCopyEntries_eq entries]

theorem deepCopyList_eq : ∀ l : List JValue, deepCopyList l = l
  | [] => by rw [deepCopyList]
  | v :: rest => by rw [deepCopyList, DeepCopyJSONValue_eq v, deepCopyList_eq rest]

theorem deepCopyEntries_eq : ∀ l : List (String × JValue), deepCopyEntries l = l
  | [] => by rw [deepCopyEntries]
  | (k, v) :: rest => by rw [deepCopyEntries, DeepCopyJSONValue_eq v, deepCopyEntries_eq rest]
end

theorem pathClear_nil : ∀ rest : List String, pathClear [] rest = true
  | [] => rfl
  | _ :: _ => rfl

theorem setNestedFieldNoCopy_spec :
    ∀ (obj : JMap) (value : JValue) (field : String) (rest : List String),
      ∃ m, setNestedFieldNoCopy obj value (field :: rest)
            = some (m, pathClear obj (List.dropLast (field :: rest)))
        ∧ (pathClear obj (List.dropLast (field :: rest)) = false → m = obj)
        ∧ (pathClear obj (List.dropLast (field :: rest)) = true →
            nestedFieldNoCopy m (field :: rest) = some value)
  | obj, value, field, [] => by
      refine ⟨insertKey obj field value, ?_, ?_, ?_⟩
      · simp [setNestedFieldNoCopy, pathClear]
      · simp [pathClear]
      · intro _
        simp [nestedFieldNoCopy, nestedFieldNoCopyVal, lookupKey_insertKey_self]
  | obj, value, field, next :: rest => by
      cases hl : lookupKey obj field with
      | none =>
          obtain ⟨m', hm', _, hsucc⟩ := setNestedFieldNoCopy_spec [] value next rest
          rw [pathClear_nil] at hm' hsucc
          refine ⟨insertKey obj field (JValue.obj m'), ?_, ?_, ?_⟩
          · simp [setNestedFieldNoCopy, hl, hm', List.dropLast_cons₂, pathClear]
          · simp [List.dropLast_cons₂, pathClear, hl]
          · intro _
            simp [nestedFieldNoCopy, nestedFieldNoCopyVal, lookupKey_insertKey_self]
            exact hsucc rfl
      | some v =>
          cases v with
          | obj sub =>
              obtain ⟨m', hm', hfail, hsucc⟩ := setNestedFieldNoCopy_spec sub value next rest
              cases hb : pathClear sub (List.dropLast (next :: rest)) with
              | true =>
                  rw [hb] at hm'
                  refine ⟨insertKey obj field (JValue.obj m'), ?_, ?_, ?_⟩
                  · simp [setNestedFieldNoCopy, hl, hm', List.dropLast_cons₂, pathClear, hb]
                  · simp [List.dropLast_cons₂, pathClear, hl, hb]
                  · intro _
                    simp [nestedFieldNoCopy, nestedFieldNoCopyVal, lookupKey_insertKey_self]
                    exact hsucc hb
              | false =>
                  rw [hb] at hm'
                  refine ⟨obj, ?_, ?_, ?_⟩
                  · simp [setNestedFieldNoCopy, hl, hm', List.dropLast_cons₂, pathClear, hb]
                  · intro _; rfl
                  · simp [List.dropLast_cons₂, pathClear, hl, hb]
          | null =>
              refine ⟨obj, ?_, ?_, ?_⟩
              · simp [setNestedFieldNoCopy, hl, List.dropLast_cons₂, pathClear]
              · intro _; rfl
              · simp [List.dropLast_cons₂, pathClear, hl]
          | str s =>
              refine ⟨obj, ?_, ?_, ?_⟩
              · simp [setNestedFieldNoCopy, hl, List.dropLast_cons₂, pathClear]
              · intro _; rfl
              · simp [List.dropLast_cons₂, pathClear, hl]
          | bool b =>
              refine ⟨obj, ?_, ?_, ?_⟩
              · simp [setNestedFieldNoCopy, hl, List.dropLast_cons₂, pathClear]
              · intro _; rfl
              · simp [List.dropLast_cons₂, pathClear, hl]
          | int n =>
              refine ⟨obj, ?_, ?_, ?_⟩
              · simp [setNestedFieldNoCopy, hl, List.dropLast_cons₂, pathClear]
              · intro _; rfl
              · simp [List.dropLast_cons₂, pathClear, hl]
          | float bits =>
              refine ⟨obj, ?_, ?_, ?_⟩
              · simp [setNestedFieldNoCopy, hl, List.dropLast_cons₂, pathClear]
              · intro _; rfl
              · simp [List.dropLast_cons₂, pathClear, hl]
          | arr elems =>
              refine ⟨obj, ?_, ?_, ?_⟩
              · simp [setNestedFieldNoCopy, hl, List.dropLast_cons₂, pathClear]
              · intro _; rfl
              · simp [List.dropLast_cons₂, pathClear, hl]

theorem removeNestedField_spec :
    ∀ (obj : JMap) (field : String) (rest : List String) (v : JValue),
      nestedFieldNoCopy obj (field :: rest) = some v →
      ∃ m, RemoveNestedField obj (field :: rest) = some m
        ∧ nestedFieldNoCopy m (field :: rest) = none
  | obj, field, [], v => by
      intro hget
      refine ⟨eraseKey obj field, rfl, ?_⟩
      simp [nestedFieldNoCopy, nestedFieldNoCopyVal, lookupKey_eraseKey_self]
  | obj, field, next :: rest, v => by
      intro hget
      simp only [nestedFieldNoCopy, nestedFieldNoCopyVal] at hget
      cases hl : lookupKey obj field with
      | none => rw [hl] at hget; exact absurd hget (by simp)
      | some w =>
          rw [hl] at hget
          cases w with
          | obj sub =>
              obtain ⟨m', hm', hnone⟩ := removeNestedField_spec sub next rest v hget
              refine ⟨insertKey obj field (JValue.obj m'), ?_, ?_⟩
              · simp [RemoveNestedField, hl, hm']
              · simpa [nestedFieldNoCopy, nestedFieldNoCopyVal, lookupKey_insertKey_self]
                  using hnone
          | null => exact absurd hget (by simp [nestedFieldNoCopyVal])
          | str s => exact absurd hget (by simp [nestedFieldNoCopyVal])
          | bool b => exact absurd hget (by simp [nestedFieldNoCopyVal])
          | int n => exact absurd hget (by simp [nestedFieldNoCopyVal])
          | float bits => exact absurd hget (by simp [nestedFieldNoCopyVal])
          | arr elems => exact absurd hget (by simp [nestedFieldNoCopyVal])

theorem stringSliceOfElems_iff :
    ∀ (elems : List JValue) (ss : List String),
      stringSliceOfElems elems = some ss ↔ elems = ss.map JValue.str
  | [], ss => by
      cases ss <;> simp [stringSliceOfElems]
  | JValue.str s :: rest, ss => by
      cases ss with
      | nil =>
          simp only [stringSliceOfElems, List.map_nil]
          constructor
          · intro h
            cases hr : stringSliceOfElems rest <;> rw [hr] at h <;> simp_all
          · intro h; exact absurd h (by simp)
      | cons s₀ ss₀ =>
          simp only [stringSliceOfElems, List.map_cons]
          constructor
          · intro h
            cases hr : stringSliceOfElems rest with
            | none => rw [hr] at h; exact absurd h (by simp)
            | some tail =>
                rw [hr] at h
                simp only [Option.some.injEq, List.cons.injEq] at h
                obtain ⟨h1, h2⟩ := h
                subst h1; subst h2
                rw [(stringSliceOfElems_iff rest tail).mp hr]
          · intro h
            simp only [List.cons.injEq, JValue.str.injEq] at h
            obtain ⟨h1, h2⟩ := h
            subst h1
            rw [(stringSliceOfElems_iff rest ss₀).mpr h2]
  | JValue.null :: rest, ss => by cases ss <;> simp [stringSliceOfElems]
  | JValue.bool b :: rest, ss => by cases ss <;> simp [stringSliceOfElems]
  | JValue.int n :: rest, ss => by cases ss <;> simp [stringSliceOfElems]
  | JValue.float bits :: rest, ss => by cases ss <;> simp [stringSliceOfElems]
  | JValue.arr elems :: rest, ss => by cases ss <;> simp [stringSliceOfElems]
  | JValue.obj entries :: rest, ss => by cases ss <;> simp [stringSliceOfElems]

/-- C3 counterexample: calling `SetNestedField` or `RemoveNestedField` with a
zero-length path on the empty tree does not report the contract violation via
the error channel — it hits the out-of-range slice expressions
`fields[:len(fields)-1]` / `fields[len(fields)-1]` and panics the host
process (embedded as the `none` result). -/
theorem set_remove_empty_path_panic_counterexample :
    SetNestedField [] JValue.null [] = none ∧ RemoveNestedField [] [] = none :=
  ⟨rfl, rfl⟩

/-- C3 amended: for every tree and value, `SetNestedField` and
`RemoveNestedField` on a zero-length path panic (out-of-range slice
indexing, embedded as `none`); the contract violation is not defended and
nothing is reported via the error channel. -/
theorem set_remove_empty_path_panics (obj : JMap) (value : JValue) :
    SetNestedField obj value [] = none ∧ RemoveNestedField obj [] = none :=
  ⟨rfl, rfl⟩

/-- C10: for every mapping-rooted tree, `nestedFieldNoCopy` and
`NestedFieldCopy` at the zero-length path return `found = true` with the
whole root tree itself (`NestedFieldCopy` returning its deep copy, which is
structurally the same tree), while `SetNestedField` and `RemoveNestedField`
do not accept the zero-length path (they panic, embedded as `none`): reads
and writes are asymmetric at the empty path. -/
theorem empty_path_read_write_asymmetry (obj : JMap) (value : JValue) :
    nestedFieldNoCopy obj [] = some (JValue.obj obj)
    ∧ NestedFieldCopy obj [] = some (DeepCopyJSONValue (JValue.obj obj))
    ∧ DeepCopyJSONValue (JValue.obj obj) = JValue.obj obj
    ∧ SetNestedField obj value [] = none
    ∧ RemoveNestedField obj [] = none :=
  ⟨rfl, rfl, DeepCopyJSONValue_eq _, rfl, rfl⟩

/-- C4: for every tree, value and non-empty path, `SetNestedField` first
deep-copies the value and delegates to `setNestedFieldNoCopy`, which walks
all path segments but the last (`pathClear` characterizes that walk: it is
`false` exactly when an existing intermediate value is not a mapping, absent
segments being created as empty mappings): the call returns normally, fails
(returning `false`, leaving the tree unchanged) iff the walk is blocked, and
on success assigns the copied value at the final segment, overwriting
whatever was there. -/
theorem setNestedField_walk_create_overwrite (obj : JMap) (value : JValue)
    (fields : List String) (h : fields ≠ []) :
    SetNestedField obj value fields = setNestedFieldNoCopy obj (DeepCopyJSONValue value) fields
    ∧ ∃ m, setNestedFieldNoCopy obj (DeepCopyJSONValue value) fields
            = some (m, pathClear obj fields.dropLast)
        ∧ (pathClear obj fields.dropLast = false → m = obj)
        ∧ (pathClear obj fields.dropLast = true →
            nestedFieldNoCopy m fields = some (DeepCopyJSONValue value)) := by
  cases fields with
  | nil => exact absurd rfl h
  | cons field rest =>
      exact ⟨rfl, setNestedFieldNoCopy_spec obj (DeepCopyJSONValue value) field rest⟩

/-- Witness for C4 at the concrete input `obj = {}`, `value = "x"`,
`fields = ["a", "b"]`. -/
theorem setNestedField_walk_witness :
    ((["a", "b"] : List String) ≠ [])
    ∧ (SetNestedField [] (JValue.str "x") ["a", "b"]
          = setNestedFieldNoCopy [] (DeepCopyJSONValue (JValue.str "x")) ["a", "b"]
      ∧ ∃ m, setNestedFieldNoCopy [] (DeepCopyJSONValue (JValue.str "x")) ["a", "b"]
              = some (m, pathClear [] (List.dropLast ["a", "b"]))
          ∧ (pathClear [] (List.dropLast ["a", "b"]) = false → m = [])
          ∧ (pathClear [] (List.dropLast ["a", "b"]) = true →
              nestedFieldNoCopy m ["a", "b"] = some (DeepCopyJSONValue (JValue.str "x")))) :=
  ⟨by decide, setNestedField_walk_create_overwrite [] (JValue.str "x") ["a", "b"] (by decide)⟩

/-- C5: whenever `SetNestedField` succeeds, a subsequent `NestedFieldCopy`
of the updated tree at the same path returns `found = true` with a value
equal to the one that was set (set/get round-trip). -/
theorem set_get_roundtrip (T : JMap) (V : JValue) (P : List String) (m : JMap)
    (h : SetNestedField T V P = some (m, true)) :
    NestedFieldCopy m P = some V := by
  cases P with
  | nil => exact absurd h (by simp [SetNestedField, setNestedFieldNoCopy])
  | cons field rest =>
      obtain ⟨m', hm', _, hsucc⟩ := setNestedFieldNoCopy_spec T (DeepCopyJSONValue V) field rest
      rw [SetNestedField, hm'] at h
      simp only [Option.some.injEq, Prod.mk.injEq] at h
      obtain ⟨hmm, hpc⟩ := h
      subst hmm
      have hg := hsucc hpc
      simp [NestedFieldCopy, hg, DeepCopyJSONValue_eq]

/-- Witness for C5 at the concrete input `T = {}`, `V = "x"`, `P = ["a"]`. -/
theorem set_get_roundtrip_witness :
    SetNestedField [] (JValue.str "x") ["a"] = some ([("a", JValue.str "x")], true)
    ∧ NestedFieldCopy [("a", JValue.str "x")] ["a"] = some (JValue.str "x") :=
  ⟨rfl, set_get_roundtrip [] (JValue.str "x") ["a"] [("a", JValue.str "x")] rfl⟩

/-- C6 counterexample: at the zero-length path the claim fails — `get_raw`
on the empty tree finds the root itself, but `RemoveNestedField` at that
path panics (embedded as `none`), so no removal result exists after which
`get_raw` could return not-found. -/
theorem remove_get_empty_path_counterexample :
    nestedFieldNoCopy [] [] = some (JValue.obj [])
    ∧ ¬ ∃ m, RemoveNestedField ([] : JMap) [] = some m ∧ nestedFieldNoCopy m [] = none := by
  refine ⟨rfl, ?_⟩
  rintro ⟨m, hm, _⟩
  exact absurd hm (by simp [RemoveNestedField])

/-- C6 amended: for every tree and NON-EMPTY path at which `nestedFieldNoCopy`
returns `found = true`, `RemoveNestedField` returns normally and a subsequent
`nestedFieldNoCopy` at that path returns not-found. -/
theorem remove_then_get_not_found (T : JMap) (P : List String) (hP : P ≠ [])
    (v : JValue) (hfound : nestedFieldNoCopy T P = some v) :
    ∃ m, RemoveNestedField T P = some m ∧ nestedFieldNoCopy m P = none := by
  cases P with
  | nil => exact absurd rfl hP
  | cons field rest => exact removeNestedField_spec T field rest v hfound

/-- Witness for C6 at the concrete input `T = {"a": 1}`, `P = ["a"]`. -/
theorem remove_then_get_witness :
    ((["a"] : List String) ≠ [])
    ∧ nestedFieldNoCopy [("a", JValue.int 1)] ["a"] = some (JValue.int 1)
    ∧ ∃ m, RemoveNestedField [("a", JValue.int 1)] ["a"] = some m
        ∧ nestedFieldNoCopy m ["a"] = none :=
  ⟨by decide, rfl,
    remove_then_get_not_found [("a", JValue.int 1)] ["a"] (by decide) (JValue.int 1) rfl⟩

/-- C7: `NestedStringSlice` returns `found = true` with result `ss` exactly
when the raw traversal finds a sequence whose elements are precisely the
strings of `ss` in order; consequently it reports not-found when the path is
missing, when the value is not a sequence, or when any element is not a
string, and it never returns a partial sequence. -/
theorem nestedStringSlice_all_or_nothing (obj : JMap) (fields : List String) (ss : List String) :
    NestedStringSlice obj fields = some ss
      ↔ nestedFieldNoCopy obj fields = some (JValue.arr (ss.map JValue.str)) := by
  cases hv : nestedFieldNoCopy obj fields with
  | none => simp [NestedStringSlice, hv]
  | some v =>
      cases v with
      | arr elems =>
          simp only [NestedStringSlice, hv, Option.some.injEq, JValue.arr.injEq]
          exact stringSliceOfElems_iff elems ss
      | null => simp [NestedStringSlice, hv]
      | str s => simp [NestedStringSlice, hv]
      | bool b => simp [NestedStringSlice, hv]
      | int n => simp [NestedStringSlice, hv]
      | float bits => simp [NestedStringSlice, hv]
      | obj entries => simp [NestedStringSlice, hv]

theorem decodeItems_map_obj : ∀ ms : List JMap, decodeItems (ms.map JValue.obj) = Except.ok ms
  | [] => rfl
  | m :: rest => by simp [decodeItems, decodeItems_map_obj rest]

theorem decodeToList_eq {payload : JMap} {ms : List JMap}
    (h : lookupKey payload "items" = some (JValue.arr (ms.map JValue.obj))) :
    decodeToList payload = Except.ok
      { Object := eraseKey payload "items"
      , Items := ms.map (fun m =>
          if getKindOf m = "" ∧ getAPIVersionOf m = ""
          then SetAPIVersion (SetKind ⟨m⟩ (trimSuffix (getKindOf payload) "List"))
                 (getAPIVersionOf payload)
          else ⟨m⟩) } := by
  unfold decodeToList extractItems
  rw [h]
  simp [decodeItems_map_obj]

theorem decodeToList_ok_object {payload : JMap} {l : UnstructuredList}
    (h : decodeToList payload = Except.ok l) :
    l.Object = eraseKey payload "items" := by
  unfold decodeToList at h
  split at h
  · exact absurd h (by simp)
  · split at h
    · exact absurd h (by simp)
    · simp only [Except.ok.injEq] at h
      rw [← h]

theorem getNestedString_top_of_lookup {m : JMap} {k : String} {s : String}
    (h : lookupKey m k = some (JValue.str s)) : getNestedString m [k] = s := by
  simp [getNestedString, NestedString, nestedFieldNoCopy, nestedFieldNoCopyVal, h]

/-- C1: when decoding a list payload whose "items" sequence holds the item
mappings `ms`, `decodeToList` succeeds and relates the source items to the
decoded items pointwise, in order: an item whose own kind AND apiVersion are
both empty gets kind = the list's kind with a trailing "List" suffix
stripped and apiVersion = the list's apiVersion (all its other top-level
fields unchanged); an item with at least one of the two non-empty is left
entirely untouched. -/
theorem decodeToList_item_inference (payload : JMap) (ms : List JMap)
    (h : lookupKey payload "items" = some (JValue.arr (ms.map JValue.obj))) :
    ∃ l, decodeToList payload = Except.ok l
      ∧ List.Forall₂ (fun (m : JMap) (item : Unstructured) =>
          ((getKindOf m = "" ∧ getAPIVersionOf m = "") →
            getKindOf item.Object = trimSuffix (getKindOf payload) "List"
            ∧ getAPIVersionOf item.Object = getAPIVersionOf payload
            ∧ ∀ k, k ≠ "kind" → k ≠ "apiVersion" →
                lookupKey item.Object k = lookupKey m k)
          ∧ (¬(getKindOf m = "" ∧ getAPIVersionOf m = "") → item.Object = m))
        ms l.Items := by
  refine ⟨_, decodeToList_eq h, ?_⟩
  simp only [List.forall₂_map_right_iff]
  refine List.forall₂_same.mpr (fun m _ => ?_)
  by_cases hc : getKindOf m = "" ∧ getAPIVersionOf m = ""
  · rw [if_pos hc]
    refine ⟨fun _ => ?_, fun hn => absurd hc hn⟩
    simp only [SetAPIVersion, SetKind]
    refine ⟨?_, ?_, ?_⟩
    · apply getNestedString_top_of_lookup
      rw [lookupKey_insertKey_ne _ _ _ _ (by decide : ("apiVersion" : String) ≠ "kind")]
      exact lookupKey_insertKey_self _ _ _
    · exact getNestedString_top_of_lookup (lookupKey_insertKey_self _ _ _)
    · intro k hk hav
      rw [lookupKey_insertKey_ne _ _ _ _ (fun e => hav e.symm),
        lookupKey_insertKey_ne _ _ _ _ (fun e => hk e.symm)]
  · rw [if_neg hc]
    exact ⟨fun hcc => absurd hcc hc, fun _ => rfl⟩

/-- Witness for C1 at the spec's concrete `PodList` payload, whose first
item lacks both kind and apiVersion and whose second item carries kind
"Node". -/
theorem decodeToList_item_inference_witness :
    lookupKey podListPayload "items" = some (JValue.arr (podListItemMaps.map JValue.obj))
    ∧ ∃ l, decodeToList podListPayload = Except.ok l
      ∧ List.Forall₂ (fun (m : JMap) (item : Unstructured) =>
          ((getKindOf m = "" ∧ getAPIVersionOf m = "") →
            getKindOf item.Object = trimSuffix (getKindOf podListPayload) "List"
            ∧ getAPIVersionOf item.Object = getAPIVersionOf podListPayload
            ∧ ∀ k, k ≠ "kind" → k ≠ "apiVersion" →
                lookupKey item.Object k = lookupKey m k)
          ∧ (¬(getKindOf m = "" ∧ getAPIVersionOf m = "") → item.Object = m))
        podListItemMaps l.Items :=
  ⟨rfl, decodeToList_item_inference podListPayload podListItemMaps rfl⟩

/-- C8: after a successful list decode the list's backing mapping contains
no "items" key; encoding the list serializes a mapping whose "items" key
holds the ordered sequence of the items' backing mappings and which agrees
with the list's own mapping on every other key (the shallow copy leaves the
list's mapping itself untouched). -/
theorem decode_encode_items_invariant (payload : JMap) (l : UnstructuredList)
    (h : decodeToList payload = Except.ok l) :
    lookupKey l.Object "items" = none
    ∧ lookupKey (encodeListObject l) "items"
        = some (JValue.arr (l.Items.map (fun i => JValue.obj i.Object)))
    ∧ ∀ k, k ≠ "items" → lookupKey (encodeListObject l) k = lookupKey l.Object k := by
  refine ⟨?_, ?_, ?_⟩
  · rw [decodeToList_ok_object h]
    exact lookupKey_eraseKey_self _ _
  · exact lookupKey_insertKey_self _ _ _
  · intro k hk
    exact lookupKey_insertKey_ne _ _ _ _ (fun e => hk e.symm)

/-- Witness for C8 at the spec's concrete `PodList` payload. -/
theorem decode_encode_items_witness :
    decodeToList podListPayload = Except.ok podListDecoded
    ∧ (lookupKey podListDecoded.Object "items" = none
      ∧ lookupKey (encodeListObject podListDecoded) "items"
          = some (JValue.arr (podListDecoded.Items.map (fun i => JValue.obj i.Object)))
      ∧ ∀ k, k ≠ "items" →
          lookupKey (encodeListObject podListDecoded) k = lookupKey podListDecoded.Object k) :=
  ⟨rfl, decode_encode_items_invariant podListPayload podListDecoded rfl⟩

/-- C2 counterexample: decoding the claim's own example payload
`{"metadata":{"name":"a"}}` does fail with the missing-kind error and does
return the (empty) type descriptor, and the partially decoded object exists
and reports name "a" inside the decode step — but `Decode` returns `nil` as
the object (helpers.go:297 returns `nil, &gvk, err`), so the partially
decoded object is NOT returned to the caller, contrary to the claim. -/
theorem decode_missingKind_nil_object_counterexample :
    (∃ u, decodeValue missingKindPayload = Except.ok (DecodedObj.single u)
        ∧ getNestedString u.Object ["metadata", "name"] = "a")
    ∧ (Decode missingKindPayload).err = some DecodeErr.missingKind
    ∧ (Decode missingKindPayload).gvk = some ⟨"", ""⟩
    ∧ (Decode missingKindPayload).obj = none :=
  ⟨⟨⟨[("metadata", JValue.obj [("name", JValue.str "a")])]⟩, rfl, rfl⟩, rfl, rfl, rfl⟩

/-- C2 amended: for every payload that decodes successfully but whose
resulting object has an empty kind string, `Decode` returns the
"missing kind" error together with the (possibly empty) type descriptor,
but the returned object is `nil` — the partially decoded object is
discarded, not handed back. -/
theorem decode_missingKind_returns_descriptor_not_object
    (payload : JValue) (o : DecodedObj)
    (hdec : decodeValue payload = Except.ok o)
    (hkind : (typeMetaOf o).kind = "") :
    Decode payload = ⟨none, some (typeMetaOf o), some DecodeErr.missingKind⟩ := by
  unfold Decode
  rw [hdec]
  simp [hkind]

/-- Witness for C2 (amended) at the concrete payload
`{"metadata":{"name":"a"}}`. -/
theorem decode_missingKind_witness :
    decodeValue missingKindPayload
        = Except.ok (DecodedObj.single ⟨[("metadata", JValue.obj [("name", JValue.str "a")])]⟩)
    ∧ (typeMetaOf
        (DecodedObj.single ⟨[("metadata", JValue.obj [("name", JValue.str "a")])]⟩)).kind = ""
    ∧ Decode missingKindPayload
        = ⟨none,
            some (typeMetaOf
              (DecodedObj.single ⟨[("metadata", JValue.obj [("name", JValue.str "a")])]⟩)),
            some DecodeErr.missingKind⟩ :=
  ⟨rfl, rfl,
    decode_missingKind_returns_descriptor_not_object missingKindPayload
      (DecodedObj.single ⟨[("metadata", JValue.obj [("name", JValue.str "a")])]⟩) rfl rfl⟩

/-- C9: `Convert` succeeds exactly when both its input and its output are the
dynamic-object (`Unstructured`) shape; on success it assigns the input's
backing storage to the output; on failure the output is returned unmodified
and the error message names the offending argument's concrete type. -/
theorem convert_succeeds_iff_both_unstructured (cin cout : ConvArg) :
    ((Convert cin cout).1 = none
      ↔ (∃ u, cin = ConvArg.unstructured u) ∧ (∃ w, cout = ConvArg.unstructured w))
    ∧ (∀ u w, cin = ConvArg.unstructured u → cout = ConvArg.unstructured w →
        Convert cin cout = (none, ConvArg.unstructured ⟨u.Object⟩))
    ∧ ((Convert cin cout).1.isSome = true → (Convert cin cout).2 = cout)
    ∧ (∀ msg, (Convert cin cout).1 = some msg →
        msg = "input type " ++ typeNameOf cin ++ " in not valid for unstructured conversion"
        ∨ msg = "output type " ++ typeNameOf cout ++ " in not valid for unstructured conversion") := by
  cases cin <;> cases cout <;>
    simp [Convert, typeNameOf]
